import Mathlib

/-!
Verification of the chrome-bridge connection/session core.

This file gives a shallow embedding of the server side of the repository:
`src/server/protocol.js` (command envelopes, correlation ids, timeout policy)
and `src/server/ws-manager.js` (the `WSManager` class: single active channel,
pending-request table, heartbeat, frame routing), together with the
connection-state machine of `src/extension/service-worker.js` that the
connectivity-notification claims touch.

The event loop of Node.js is single threaded, so every event handler of the
source runs to completion atomically.  The embedding therefore models the
manager as a step function from a state and one event to a new state plus a
list of observable effects (callback invocations, frames written, channels
closed, log lines).  JavaScript `setTimeout` timers of pending entries are
always created exactly when an entry is inserted and cleared exactly when it
is removed, so a timer is active precisely while its entry is in the pending
map; the deadline-fire event is accordingly enabled exactly for ids present
in the map.
-/

namespace Bridge

/-- JSON values as produced by `JSON.parse` (numbers restricted to integers,
which covers every value the claims touch). -/
inductive Json where
  | null : Json
  | bool : Bool → Json
  | num : Int → Json
  | str : String → Json
  | arr : List Json → Json
  | obj : List (String × Json) → Json

/-- Association-list lookup, first match wins (JS `Map.get`). -/
def alookup {α : Type} : List (String × α) → String → Option α
  | [], _ => none
  | (k', v) :: rest, k => if k' = k then some v else alookup rest k

/-- Association-list removal of the first binding of a key (JS `Map.delete`;
with duplicate-free keys this removes exactly the binding of the key). -/
def aerase {α : Type} : List (String × α) → String → List (String × α)
  | [], _ => []
  | (k', v) :: rest, k => if k' = k then rest else (k', v) :: aerase rest k

/-- Association-list insertion (JS `Map.set`: an existing key keeps its
position and is overwritten, a new key is appended, preserving the
insertion-order iteration of JS maps). -/
def aset {α : Type} : List (String × α) → String → α → List (String × α)
  | [], k, v => [(k, v)]
  | (k', v') :: rest, k, v =>
    if k' = k then (k, v) :: rest else (k', v') :: aset rest k v

/-- Property access `v[k]` on a parsed JSON value other than `null`:
a field of an object (`JSON.parse` keeps the last of duplicate keys),
`undefined` (here `none`) on every other value. -/
def jsField : Json → String → Option Json
  | .obj fs, k => alookup fs.reverse k
  | _, _ => none

/-- JavaScript falsiness of a JSON value. -/
def jsFalsy : Json → Bool
  | .null => true
  | .bool b => !b
  | .num n => n = 0
  | .str s => s.isEmpty
  | .arr _ => false
  | .obj _ => false

/-- JavaScript string coercion `String(v)` as applied by the `Error`
constructor; only the string case is ever relied upon by the claims. -/
def jsToErrorText : Json → String
  | .str s => s
  | .bool b => if b then "true" else "false"
  | .num n => n.repr
  | .null => "null"
  | .obj _ => "[object Object]"
  | .arr xs => String.intercalate "," (xs.attach.map fun x => jsToErrorText x.1)
decreasing_by
  have := List.sizeOf_lt_of_mem x.2
  simp only [Json.arr.sizeOf_spec]
  omega

/-! ## `src/server/protocol.js` -/

namespace MessageType

def SCREENSHOT : String := "screenshot"
def FULL_PAGE_SCREENSHOT : String := "full_page_screenshot"
def CHECK_LINKS : String := "check_links"
def WAIT_FOR_ELEMENT : String := "wait_for_element"
def RESULT : String := "result"
def ERROR : String := "error"
def PING : String := "ping"
def PONG : String := "pong"

end MessageType

def DEFAULT_PORT : Nat := 8765

def COMMAND_TIMEOUT_MS : Nat := 30000

def SCREENSHOT_TIMEOUT_MS : Nat := 10000

def PING_INTERVAL_MS : Nat := 15000

/-- `getTimeout` of `protocol.js`. -/
def getTimeout (type : String) : Nat :=
  if type = MessageType.SCREENSHOT then SCREENSHOT_TIMEOUT_MS
  else if type = MessageType.FULL_PAGE_SCREENSHOT ∨ type = MessageType.CHECK_LINKS then 120000
  else if type = MessageType.WAIT_FOR_ELEMENT then 60000
  else COMMAND_TIMEOUT_MS

/-- The correlation-id template literal of `createCommand`:
the backtick string msg_(counter)_(Date.now()). -/
def mkId (counter now : Nat) : String :=
  "msg_" ++ Nat.repr counter ++ "_" ++ Nat.repr now

/-- A command envelope as built by `createCommand`. -/
structure Command where
  id : String
  type : String
  params : Json
  timestamp : Nat

/-- `createCommand` of `protocol.js`.  The module-level `messageCounter` is
passed and returned explicitly; `tNowId` and `tNowTs` are the two separate
`Date.now()` reads in the id template and the `timestamp` field. -/
def createCommand (messageCounter : Nat) (type : String) (params : Json)
    (tNowId tNowTs : Nat) : Nat × Command :=
  let c := messageCounter + 1
  (c, { id := mkId c tNowId, type := type, params := params, timestamp := tNowTs })

/-! ## `src/server/ws-manager.js` -/

/-- A WebSocket channel object: its identity (JS reference identity of the
`ws` object, distinct per accepted connection) and its `readyState`. -/
structure Chan where
  chid : Nat
  ready : Nat
deriving DecidableEq

/-- A pending-table entry `id → (resolve, reject, timer)`.  The resolve and
reject continuations belong to the caller whose id keys the entry, so a
callback invocation is recorded as a `settled` effect naming the id; the
command type and timeout are the values captured by the deadline closure. -/
structure Entry where
  ctype : String
  timeoutMs : Nat
deriving DecidableEq

/-- The mutable fields of `WSManager` that the claims concern
(`wss` and `pingInterval` carry no claim-relevant state). -/
structure SState where
  client : Option Chan
  pending : List (String × Entry)
  messageCounter : Nat

/-- The state of a freshly constructed `WSManager` (no client, empty
pending map, `protocol.js` counter at 0). -/
def init : SState := { client := none, pending := [], messageCounter := 0 }

/-- How a settled caller observes the outcome: `resolve(msg.data)` (the
field may be absent, i.e. `undefined`) or `reject(new Error(text))`. -/
inductive Outcome where
  | resolved : Option Json → Outcome
  | rejected : String → Outcome

/-- Observable effects of one handler run. -/
inductive Effect where
  | settled : String → Outcome → Effect
  | sentCmd : Nat → Command → Effect
  | sentPing : Nat → Nat → Effect
  | closedChan : Nat → Nat → String → Effect
  | log : String → Effect
  | stateNote : String → Effect

/-- A raw inbound WebSocket message: either text that `JSON.parse` rejects,
or the parsed JSON value. -/
inductive Raw where
  | malformed : Raw
  | parsed : Json → Raw

/-- `isConnected`: a client is tracked and its transport readyState is
`WebSocket.OPEN` (1). -/
def isConnected (st : SState) : Bool :=
  match st.client with
  | some c => c.ready = 1
  | none => false

/-- The strict comparison `v.type === s` of a parsed value against a string
constant: true exactly when the `type` field is that string. -/
def typeIs (v : Json) (s : String) : Bool :=
  match jsField v "type" with
  | some (.str t) => t = s
  | _ => false

/-- The error text `msg.error || defaultUnknownError` passed to `new Error`
by the error branch of `_handleMessage`. -/
def errText (v : Json) : String :=
  match jsField v "error" with
  | some e => if jsFalsy e then "Unknown error from extension" else jsToErrorText e
  | none => "Unknown error from extension"

/-- Lines 127-139 of `_handleMessage`: the inlined settle operation of the
pending table.  Returns whether a pending entry was found (the `settle`
return value of the specification), the new table, and the effects. -/
def settleFrame (pending : List (String × Entry)) (v : Json) :
    Bool × List (String × Entry) × List Effect :=
  match jsField v "id" with
  | some (.str id) =>
    match alookup pending id with
    | none => (false, pending, [])
    | some _ =>
      let p' := aerase pending id
      if typeIs v MessageType.ERROR then
        (true, p', [.settled id (.rejected (errText v))])
      else
        (true, p', [.settled id (.resolved (jsField v "data"))])
  | _ => (false, pending, [])

/-- `_handleMessage`.  `JSON.parse` failure is caught, logged and dropped;
but a successfully parsed `null` throws a TypeError at `msg.type` outside
the try block, so the run is modelled as `Except`, an `error` result being
an uncaught exception escaping the handler. -/
def handleMessage (pending : List (String × Entry)) (raw : Raw) :
    Except String (List (String × Entry) × List Effect) :=
  match raw with
  | .malformed => .ok (pending, [.log "Invalid JSON received"])
  | .parsed .null =>
    .error "TypeError: Cannot read properties of null (reading type)"
  | .parsed v =>
    if typeIs v MessageType.PONG then .ok (pending, [])
    else
      let r := settleFrame pending v
      .ok (r.2.1, r.2.2)

/-- The effect list of `_rejectAllPending`: each entry, in map iteration
order, has its timer cleared and its reject invoked with the reason. -/
def rejectAllEffects (pending : List (String × Entry)) (reason : String) : List Effect :=
  pending.map fun p => .settled p.1 (.rejected reason)

/-- The outcome of `sendCommand` visible to its direct caller: the promise
rejects in the same tick, or a pending entry with this id was registered. -/
inductive SendRes where
  | notConnected : String → SendRes
  | registered : String → SendRes

/-- `sendCommand`: reject immediately when not connected (no counter bump,
no timer, no frame); otherwise build the envelope, start the deadline timer,
register the entry and write the frame to the active channel. -/
def sendCommand (st : SState) (type : String) (params : Json)
    (tNowId tNowTs : Nat) : SState × List Effect × SendRes :=
  if isConnected st then
    match st.client with
    | some c =>
      let r := createCommand st.messageCounter type params tNowId tNowTs
      let cmd := r.2
      let timeout := getTimeout type
      ({ st with messageCounter := r.1,
                 pending := aset st.pending cmd.id { ctype := type, timeoutMs := timeout } },
       [.sentCmd c.chid cmd], .registered cmd.id)
    | none => (st, [], .notConnected "Chrome extension not connected")
  else (st, [], .notConnected "Chrome extension not connected")

/-- The events the event loop can deliver to the manager. -/
inductive Event where
  | connect : Nat → Event
  | closeEvt : Nat → Event
  | message : Raw → Event
  | send : String → Json → Nat → Nat → Event
  | timerFire : String → Event
  | pingTick : Nat → Event
  | stop : Event

/-- One atomic handler run.  An `Except.error` result is an exception
escaping the handler (only possible for the inbound-frame handler). -/
def step (st : SState) : Event → Except String (SState × List Effect)
  | .connect chid =>
    match st.client with
    | some old =>
      .ok ({ st with client := some { chid := chid, ready := 1 } },
           [.log "Chrome extension connected", .log "Replacing existing connection",
            .closedChan old.chid 1000 "Replaced by new connection"])
    | none =>
      .ok ({ st with client := some { chid := chid, ready := 1 } },
           [.log "Chrome extension connected"])
  | .closeEvt chid =>
    match st.client with
    | some c =>
      if c.chid = chid then
        .ok ({ st with client := none, pending := [] },
             .log "Chrome extension disconnected"
               :: rejectAllEffects st.pending "Extension disconnected")
      else .ok (st, [.log "Chrome extension disconnected"])
    | none => .ok (st, [.log "Chrome extension disconnected"])
  | .message raw =>
    (handleMessage st.pending raw).map fun r => ({ st with pending := r.1 }, r.2)
  | .send type params tNowId tNowTs =>
    let r := sendCommand st type params tNowId tNowTs
    .ok (r.1, r.2.1)
  | .timerFire id =>
    match alookup st.pending id with
    | some e =>
      .ok ({ st with pending := aerase st.pending id },
           [.settled id (.rejected
             ("Command " ++ e.ctype ++ " timed out after " ++ Nat.repr e.timeoutMs ++ "ms"))])
    | none => .ok (st, [])
  | .pingTick now =>
    if isConnected st then
      match st.client with
      | some c => .ok (st, [.sentPing c.chid now])
      | none => .ok (st, [])
    else .ok (st, [])
  | .stop =>
    let effs := rejectAllEffects st.pending "Server shutting down"
    match st.client with
    | some c =>
      .ok ({ st with pending := [], client := none },
           effs ++ [.closedChan c.chid 1000 "Server shutting down"])
    | none => .ok ({ st with pending := [] }, effs)

/-- Enabledness of an event in a state: a deadline timer can fire only while
its entry is still registered (`clearTimeout` accompanies every removal). -/
def enabledB (st : SState) : Event → Bool
  | .timerFire id => (alookup st.pending id).isSome
  | _ => true

/-- Run a sequence of enabled events, collecting all effects; `none` when an
event is not enabled or a handler throws. -/
def runOk : SState → List Event → Option (SState × List Effect)
  | st, [] => some (st, [])
  | st, e :: evs =>
    if enabledB st e then
      match step st e with
      | .ok (st', effs) =>
        match runOk st' evs with
        | some (st'', effs') => some (st'', effs ++ effs')
        | none => none
      | .error _ => none
    else none

/-- The ids of the settlement effects in a list, in order. -/
def settledIds (effs : List Effect) : List String :=
  effs.filterMap fun e => match e with | .settled id _ => some id | _ => none

/-- Whether an event is the acceptance of a new incoming connection. -/
def Event.isConnect : Event → Bool
  | .connect _ => true
  | _ => false

/-! ## `src/extension/service-worker.js`, connection-state machine

Only the WebSocket connection logic (lines 8-124) is embedded: the command
dispatcher is out of scope for every claim.  `ws` is modelled by the
readyState of the current WebSocket object (`none` when the variable is
null); readyState numbering is the platform one (CONNECTING 0, OPEN 1). -/

namespace Ext

def RECONNECT_BASE_MS : Nat := 1000

def RECONNECT_MAX_MS : Nat := 30000

structure EState where
  ws : Option Nat
  reconnectDelay : Nat
  connectionState : String

def initExt : EState :=
  { ws := none, reconnectDelay := RECONNECT_BASE_MS, connectionState := "disconnected" }

/-- Observable effects of the service worker connection logic. -/
inductive EEffect where
  | broadcast : String → EEffect
  | wsCreate : EEffect
  | reply : String → EEffect
  | log : String → EEffect

/-- `setConnectionState`: record the new state and broadcast
a connectionState message with it to the popup. -/
def setConnectionState (st : EState) (s : String) : EState × List EEffect :=
  ({ st with connectionState := s }, [.broadcast s])

/-- Events delivered to the service worker connection logic.  The Boolean of
the connect events tells whether the WebSocket constructor succeeds. -/
inductive EEvent where
  | connectCall : Bool → EEvent
  | reconnectFire : Bool → EEvent
  | wsOpen : EEvent
  | wsClose : EEvent
  | query : EEvent

/-- The body of `connect()`: return if a socket is already OPEN or
CONNECTING, otherwise go to `connecting` (broadcast), then create the
socket; a constructor failure is logged and leaves the state `connecting`
with a retry scheduled. -/
def connectBody (st : EState) (createOk : Bool) : EState × List EEffect :=
  let alreadyBusy : Bool :=
    match st.ws with
    | some r => r = 1 || r = 0
    | none => false
  if alreadyBusy then (st, [])
  else
    let r := setConnectionState st "connecting"
    if createOk then ({ r.1 with ws := some 0 }, r.2 ++ [.wsCreate])
    else (r.1, r.2 ++ [.log "WebSocket creation error"])

/-- One handler run of the service worker connection logic. -/
def extStep (st : EState) : EEvent → EState × List EEffect
  | .connectCall ok => connectBody st ok
  | .reconnectFire ok =>
    connectBody { st with reconnectDelay := min (st.reconnectDelay * 2) RECONNECT_MAX_MS } ok
  | .wsOpen =>
    let r := setConnectionState { st with ws := some 1 } "connected"
    ({ r.1 with reconnectDelay := RECONNECT_BASE_MS },
     .log "Connected to MCP server" :: r.2)
  | .wsClose =>
    let r := setConnectionState { st with ws := none } "disconnected"
    (r.1, .log "Disconnected from MCP server" :: r.2)
  | .query => (st, [.reply st.connectionState])

end Ext

/-! ## Decimal rendering

Groundwork relating `Nat.repr` (used by the id template literal of
`createCommand`) to a reference rendering, in order to prove that distinct
counters yield distinct correlation ids. -/

/-- Reference decimal rendering: most significant digit first. -/
def decDigits (n : Nat) : List Char :=
  if _h : n < 10 then [Nat.digitChar n]
  else decDigits (n / 10) ++ [Nat.digitChar (n % 10)]
decreasing_by
  exact Nat.div_lt_self (by omega) (by omega)

/-- Value of a decimal digit character. -/
def digitVal (c : Char) : Nat := c.toNat - 48

/-- Reading a most-significant-first digit list back to a number. -/
def parseDigits (l : List Char) : Nat :=
  l.foldl (fun a c => 10 * a + digitVal c) 0

lemma digitVal_digitChar (m : Nat) (h : m < 10) : digitVal (Nat.digitChar m) = m := by
  interval_cases m <;> rfl

lemma digitChar_ne_underscoreChar (m : Nat) (h : m < 10) : Nat.digitChar m ≠ '_' := by
  interval_cases m <;> decide

lemma toDigitsCore_eq_decDigits :
    ∀ (f n : Nat) (ds : List Char), n < f →
      Nat.toDigitsCore 10 f n ds = decDigits n ++ ds := by
  intro f
  induction f with
  | zero => intro n ds h; omega
  | succ f ih =>
    intro n ds h
    rw [show Nat.toDigitsCore 10 (f + 1) n ds =
          if n / 10 = 0 then Nat.digitChar (n % 10) :: ds
          else Nat.toDigitsCore 10 f (n / 10) (Nat.digitChar (n % 10) :: ds) from rfl]
    by_cases h0 : n / 10 = 0
    · have hn : n < 10 := (Nat.div_eq_zero_iff (by omega)).mp h0
      rw [if_pos h0, decDigits, dif_pos hn, Nat.mod_eq_of_lt hn]
      rfl
    · have hn : ¬ n < 10 := fun hlt => h0 ((Nat.div_eq_zero_iff (by omega)).mpr hlt)
      have hdiv : n / 10 < n := Nat.div_lt_self (by omega) (by omega)
      rw [if_neg h0, ih (n / 10) (Nat.digitChar (n % 10) :: ds) (by omega),
          show decDigits n = decDigits (n / 10) ++ [Nat.digitChar (n % 10)] from
            by rw [decDigits, dif_neg hn],
          List.append_assoc]
      rfl

lemma repr_data_eq_decDigits (n : Nat) : (Nat.repr n).data = decDigits n := by
  have h : Nat.toDigits 10 n = decDigits n ++ [] :=
    toDigitsCore_eq_decDigits (n + 1) n [] (Nat.lt_succ_self n)
  rw [show Nat.repr n = (Nat.toDigits 10 n).asString from rfl, h, List.append_nil]
  rfl

lemma parseDigits_append_singleton (xs : List Char) (c : Char) :
    parseDigits (xs ++ [c]) = 10 * parseDigits xs + digitVal c := by
  simp [parseDigits, List.foldl_append]

lemma parseDigits_decDigits : ∀ n : Nat, parseDigits (decDigits n) = n := by
  intro n
  induction n using Nat.strong_induction_on with
  | _ n ih =>
    by_cases h : n < 10
    · rw [decDigits, dif_pos h]
      simpa [parseDigits] using digitVal_digitChar n h
    · rw [decDigits, dif_neg h, parseDigits_append_singleton,
          ih (n / 10) (Nat.div_lt_self (by omega) (by omega)),
          digitVal_digitChar (n % 10) (Nat.mod_lt _ (by omega))]
      omega

lemma repr_data_inj {a b : Nat} (h : (Nat.repr a).data = (Nat.repr b).data) : a = b := by
  have := congrArg parseDigits
    ((repr_data_eq_decDigits a).symm.trans (h.trans (repr_data_eq_decDigits b)))
  rwa [parseDigits_decDigits, parseDigits_decDigits] at this

lemma underscore_not_mem_repr (n : Nat) : '_' ∉ (Nat.repr n).data := by
  rw [repr_data_eq_decDigits]
  induction n using Nat.strong_induction_on with
  | _ n ih =>
    by_cases h : n < 10
    · rw [decDigits, dif_pos h]
      simpa using (digitChar_ne_underscoreChar n h).symm
    · rw [decDigits, dif_neg h]
      intro hmem
      rcases List.mem_append.mp hmem with hmem | hmem
      · exact ih (n / 10) (Nat.div_lt_self (by omega) (by omega)) hmem
      · exact digitChar_ne_underscoreChar (n % 10) (Nat.mod_lt _ (by omega))
          (List.mem_singleton.mp hmem).symm

lemma sep_split {x : Char} :
    ∀ {a b c d : List Char}, x ∉ a → x ∉ b → a ++ x :: c = b ++ x :: d → a = b ∧ c = d := by
  intro a
  induction a with
  | nil =>
    intro b c d _ hb h
    cases b with
    | nil => exact ⟨rfl, by injection h⟩
    | cons y b' =>
      injection h with h1 _
      exact absurd (h1 ▸ List.mem_cons_self y b') hb
  | cons y a' ih =>
    intro b c d ha hb h
    cases b with
    | nil =>
      injection h with h1 _
      exact absurd (h1 ▸ List.mem_cons_self y a') ha
    | cons z b' =>
      injection h with h1 h2
      have := ih (fun hm => ha (List.mem_cons_of_mem y hm))
        (fun hm => hb (h1 ▸ List.mem_cons_of_mem z hm)) h2
      exact ⟨by rw [h1, this.1], this.2⟩

/-- Correlation ids determine their counter component: ids built from
distinct counters are distinct strings, whatever the timestamps. -/
lemma mkId_inj_counter {c1 t1 c2 t2 : Nat} (h : mkId c1 t1 = mkId c2 t2) : c1 = c2 := by
  have hdata : ['m', 's', 'g', '_'] ++ ((Nat.repr c1).data ++ '_' :: (Nat.repr t1).data) =
      ['m', 's', 'g', '_'] ++ ((Nat.repr c2).data ++ '_' :: (Nat.repr t2).data) := by
    have := congrArg String.data h
    simpa [mkId, String.data_append, List.append_assoc] using this
  have hmid := List.append_cancel_left hdata
  have hsplit := sep_split (underscore_not_mem_repr c1) (underscore_not_mem_repr c2) hmid
  exact repr_data_inj hsplit.1

lemma mkId_ne_of_counter_ne {c1 t1 c2 t2 : Nat} (h : c1 ≠ c2) :
    mkId c1 t1 ≠ mkId c2 t2 :=
  fun he => h (mkId_inj_counter he)

/-! ## Association-list lemmas for the pending map -/

/-- The keys of an association list, in order. -/
def keysOf {α : Type} (l : List (String × α)) : List String := l.map Prod.fst

@[simp] lemma keysOf_nil {α : Type} : keysOf ([] : List (String × α)) = [] := rfl

@[simp] lemma keysOf_cons {α : Type} (p : String × α) (l : List (String × α)) :
    keysOf (p :: l) = p.1 :: keysOf l := rfl

lemma alookup_eq_none_iff {α : Type} {l : List (String × α)} {k : String} :
    alookup l k = none ↔ k ∉ keysOf l := by
  induction l with
  | nil => simp [alookup]
  | cons p rest ih =>
    by_cases h : p.1 = k
    · simp [alookup, h]
    · simp only [alookup, if_neg h, keysOf_cons, List.mem_cons, ih]
      constructor
      · intro hk hc
        rcases hc with hc | hc
        · exact h hc.symm
        · exact hk hc
      · intro hk
        exact fun hc => hk (Or.inr hc)

lemma alookup_isSome_iff {α : Type} {l : List (String × α)} {k : String} :
    (alookup l k).isSome = true ↔ k ∈ keysOf l := by
  rcases ho : alookup l k with _ | v
  · simpa using alookup_eq_none_iff.mp ho
  · simp only [Option.isSome_some, true_iff]
    by_contra hk
    rw [alookup_eq_none_iff.mpr hk] at ho
    exact Option.noConfusion ho

lemma mem_of_alookup_eq_some {α : Type} {l : List (String × α)} {k : String} {v : α}
    (h : alookup l k = some v) : (k, v) ∈ l := by
  induction l with
  | nil => simp [alookup] at h
  | cons p rest ih =>
    by_cases hp : p.1 = k
    · rw [alookup, if_pos hp] at h
      injection h with h
      exact List.mem_cons.mpr (Or.inl (Prod.ext hp h).symm)
    · rw [alookup, if_neg hp] at h
      exact List.mem_cons_of_mem p (ih h)

lemma aerase_sublist {α : Type} (l : List (String × α)) (k : String) :
    (aerase l k).Sublist l := by
  induction l with
  | nil => simp [aerase]
  | cons p rest ih =>
    by_cases hp : p.1 = k
    · rw [aerase, if_pos hp]
      exact List.sublist_cons_self p rest
    · rw [aerase, if_neg hp]
      exact List.Sublist.cons₂ p ih

lemma keysOf_aerase_sublist {α : Type} (l : List (String × α)) (k : String) :
    (keysOf (aerase l k)).Sublist (keysOf l) :=
  (aerase_sublist l k).map Prod.fst

lemma alookup_aerase_self {α : Type} {l : List (String × α)} {k : String}
    (h : (keysOf l).Nodup) : alookup (aerase l k) k = none := by
  induction l with
  | nil => simp [aerase, alookup]
  | cons p rest ih =>
    rcases List.nodup_cons.mp h with ⟨hp, hrest⟩
    by_cases hpk : p.1 = k
    · rw [aerase, if_pos hpk]
      exact alookup_eq_none_iff.mpr (hpk ▸ hp)
    · rw [aerase, if_neg hpk, alookup, if_neg hpk]
      exact ih hrest

lemma alookup_aerase_ne {α : Type} {l : List (String × α)} {k k' : String}
    (h : k' ≠ k) : alookup (aerase l k) k' = alookup l k' := by
  induction l with
  | nil => simp [aerase]
  | cons p rest ih =>
    by_cases hpk : p.1 = k
    · rw [aerase, if_pos hpk, alookup, if_neg (hpk ▸ fun hc => h hc.symm : ¬ p.1 = k')]
    · by_cases hpk' : p.1 = k'
      · rw [aerase, if_neg hpk, alookup, if_pos hpk', alookup, if_pos hpk']
      · rw [aerase, if_neg hpk, alookup, if_neg hpk', alookup, if_neg hpk']
        exact ih

lemma keysOf_aset_of_not_mem {α : Type} {l : List (String × α)} {k : String} (v : α)
    (h : k ∉ keysOf l) : keysOf (aset l k v) = keysOf l ++ [k] := by
  induction l with
  | nil => simp [aset, keysOf]
  | cons p rest ih =>
    simp only [keysOf_cons, List.mem_cons] at h
    push_neg at h
    rw [aset, if_neg (fun hc => h.1 hc.symm)]
    simp only [keysOf_cons, List.cons_append, List.cons.injEq, true_and]
    exact ih h.2

lemma mem_aset {α : Type} {l : List (String × α)} {k : String} {v : α} {p : String × α}
    (h : p ∈ aset l k v) : p ∈ l ∨ p = (k, v) := by
  induction l with
  | nil => simpa [aset] using h
  | cons q rest ih =>
    by_cases hq : q.1 = k
    · rw [aset, if_pos hq] at h
      rcases List.mem_cons.mp h with h | h
      · exact Or.inr h
      · exact Or.inl (List.mem_cons_of_mem q h)
    · rw [aset, if_neg hq] at h
      rcases List.mem_cons.mp h with h | h
      · exact Or.inl (h ▸ List.mem_cons_self q rest)
      · rcases ih h with h | h
        · exact Or.inl (List.mem_cons_of_mem q h)
        · exact Or.inr h

lemma alookup_aset_self {α : Type} (l : List (String × α)) (k : String) (v : α) :
    alookup (aset l k v) k = some v := by
  induction l with
  | nil => simp [aset, alookup]
  | cons p rest ih =>
    by_cases hp : p.1 = k
    · rw [aset, if_pos hp, alookup, if_pos rfl]
    · rw [aset, if_neg hp, alookup, if_neg hp]
      exact ih

lemma alookup_aset_ne {α : Type} {l : List (String × α)} {k k' : String} {v : α}
    (h : k' ≠ k) : alookup (aset l k v) k' = alookup l k' := by
  induction l with
  | nil => simp [aset, alookup, Ne.symm h]
  | cons p rest ih =>
    by_cases hpk : p.1 = k
    · rw [aset, if_pos hpk, alookup, if_neg (fun hc => h hc.symm), alookup,
        if_neg (hpk ▸ fun hc => h hc.symm : ¬ p.1 = k')]
    · by_cases hpk' : p.1 = k'
      · rw [aset, if_neg hpk, alookup, if_pos hpk', alookup, if_pos hpk']
      · rw [aset, if_neg hpk, alookup, if_neg hpk', alookup, if_neg hpk']
        exact ih

/-! ## Settlement bookkeeping -/

@[simp] lemma settledIds_nil : settledIds [] = [] := rfl

@[simp] lemma settledIds_cons_settled (id : String) (o : Outcome) (effs : List Effect) :
    settledIds (.settled id o :: effs) = id :: settledIds effs := rfl

@[simp] lemma settledIds_cons_sentCmd (n : Nat) (c : Command) (effs : List Effect) :
    settledIds (.sentCmd n c :: effs) = settledIds effs := rfl

@[simp] lemma settledIds_cons_sentPing (n m : Nat) (effs : List Effect) :
    settledIds (.sentPing n m :: effs) = settledIds effs := rfl

@[simp] lemma settledIds_cons_closedChan (n m : Nat) (s : String) (effs : List Effect) :
    settledIds (.closedChan n m s :: effs) = settledIds effs := rfl

@[simp] lemma settledIds_cons_log (s : String) (effs : List Effect) :
    settledIds (.log s :: effs) = settledIds effs := rfl

@[simp] lemma settledIds_cons_stateNote (s : String) (effs : List Effect) :
    settledIds (.stateNote s :: effs) = settledIds effs := rfl

lemma settledIds_append (a b : List Effect) :
    settledIds (a ++ b) = settledIds a ++ settledIds b :=
  List.filterMap_append a b _

lemma settledIds_rejectAll (p : List (String × Entry)) (r : String) :
    settledIds (rejectAllEffects p r) = keysOf p := by
  induction p with
  | nil => rfl
  | cons q rest ih => simp [rejectAllEffects, keysOf] at ih ⊢; exact ih

/-- `_handleMessage` on a parsed value other than `null`: the pong check
followed by the inlined settle. -/
lemma handleMessage_parsed (pending : List (String × Entry)) (v : Json)
    (hv : v ≠ Json.null) :
    handleMessage pending (.parsed v) =
      if typeIs v MessageType.PONG then .ok (pending, [])
      else .ok ((settleFrame pending v).2.1, (settleFrame pending v).2.2) := by
  cases v with
  | null => exact absurd rfl hv
  | bool b => rfl
  | num n => rfl
  | str s => rfl
  | arr xs => rfl
  | obj fs => rfl

/-- A successful `_handleMessage` run either leaves the table unchanged with
no settlement, or settles exactly one registered id after erasing it. -/
lemma handleMessage_ok_cases {pending : List (String × Entry)} {raw : Raw}
    {p' : List (String × Entry)} {effs : List Effect}
    (h : handleMessage pending raw = .ok (p', effs)) :
    (p' = pending ∧ (effs = [] ∨ effs = [.log "Invalid JSON received"])) ∨
    (∃ id o, (alookup pending id).isSome = true ∧ p' = aerase pending id ∧
      effs = [.settled id o]) := by
  cases raw with
  | malformed =>
    simp only [handleMessage, Except.ok.injEq, Prod.mk.injEq] at h
    exact Or.inl ⟨h.1.symm, Or.inr h.2.symm⟩
  | parsed v =>
    by_cases hv : v = Json.null
    · subst hv; simp [handleMessage] at h
    · rw [handleMessage_parsed pending v hv] at h
      by_cases hp : typeIs v MessageType.PONG
      · rw [if_pos hp] at h
        injection h with h
        injection h with h1 h2
        exact Or.inl ⟨h1.symm, Or.inl h2.symm⟩
      · rw [if_neg hp] at h
        injection h with h
        injection h with h1 h2
        rcases hid : jsField v "id" with _ | j
        · simp only [settleFrame, hid] at h1 h2
          exact Or.inl ⟨h1.symm, Or.inl h2.symm⟩
        · cases j with
          | str id =>
            rcases hal : alookup pending id with _ | e
            · simp only [settleFrame, hid, hal] at h1 h2
              exact Or.inl ⟨h1.symm, Or.inl h2.symm⟩
            · simp only [settleFrame, hid, hal] at h1 h2
              by_cases he : typeIs v MessageType.ERROR
              · rw [if_pos he] at h1 h2
                exact Or.inr ⟨id, .rejected (errText v),
                  by rw [hal]; rfl, h1.symm, h2.symm⟩
              · rw [if_neg he] at h1 h2
                exact Or.inr ⟨id, .resolved (jsField v "data"),
                  by rw [hal]; rfl, h1.symm, h2.symm⟩
          | null =>
            simp only [settleFrame, hid] at h1 h2
            exact Or.inl ⟨h1.symm, Or.inl h2.symm⟩
          | bool b =>
            simp only [settleFrame, hid] at h1 h2
            exact Or.inl ⟨h1.symm, Or.inl h2.symm⟩
          | num n =>
            simp only [settleFrame, hid] at h1 h2
            exact Or.inl ⟨h1.symm, Or.inl h2.symm⟩
          | arr xs =>
            simp only [settleFrame, hid] at h1 h2
            exact Or.inl ⟨h1.symm, Or.inl h2.symm⟩
          | obj fs =>
            simp only [settleFrame, hid] at h1 h2
            exact Or.inl ⟨h1.symm, Or.inl h2.symm⟩

/-- Well-formedness of reachable manager states: the pending map keys are
duplicate free, and every pending id was built by the id template from a
counter already consumed (positive and at most the current counter). -/
def pendingWF (st : SState) : Prop :=
  (keysOf st.pending).Nodup ∧
  ∀ p ∈ st.pending, ∃ c t, p.1 = mkId c t ∧ 0 < c ∧ c ≤ st.messageCounter

/-- Bookkeeping for the exactly-once argument: the ids settled so far are
duplicate free, absent from the pending table, and stamped with counters
already consumed. -/
def SeenOK (st : SState) (seen : List String) : Prop :=
  seen.Nodup ∧
  (∀ id ∈ seen, id ∉ keysOf st.pending) ∧
  ∀ id ∈ seen, ∃ c t, id = mkId c t ∧ 0 < c ∧ c ≤ st.messageCounter

lemma inv_nochange {st s' : SState} {seen : List String} {effs : List Effect}
    (hp : s'.pending = st.pending) (hc : s'.messageCounter = st.messageCounter)
    (he : settledIds effs = [])
    (hwf : pendingWF st) (hs : SeenOK st seen) :
    pendingWF s' ∧ SeenOK s' (seen ++ settledIds effs) := by
  rw [he, List.append_nil]
  unfold pendingWF SeenOK at *
  rw [hp, hc]
  exact ⟨hwf, hs⟩

lemma inv_settleOne {st s' : SState} {seen : List String} {effs : List Effect} {id : String}
    (hl : (alookup st.pending id).isSome = true)
    (hp : s'.pending = aerase st.pending id) (hc : s'.messageCounter = st.messageCounter)
    (he : settledIds effs = [id])
    (hwf : pendingWF st) (hs : SeenOK st seen) :
    pendingWF s' ∧ SeenOK s' (seen ++ settledIds effs) := by
  rw [he]
  have hid_mem : id ∈ keysOf st.pending := alookup_isSome_iff.mp hl
  have hid_not_seen : id ∉ seen := fun hm => hs.2.1 id hm hid_mem
  obtain ⟨q, hq_mem, hq1⟩ := List.mem_map.mp hid_mem
  refine ⟨⟨?_, ?_⟩, ?_, ?_, ?_⟩
  · exact hp ▸ ((keysOf_aerase_sublist st.pending id).nodup hwf.1)
  · intro p hpm
    rw [hc]
    exact hwf.2 p ((aerase_sublist st.pending id).subset (hp ▸ hpm))
  · simpa [List.nodup_append] using ⟨hs.1, hid_not_seen⟩
  · intro id' hm
    rcases List.mem_append.mp hm with hm | hm
    · intro hmem
      exact hs.2.1 id' hm ((keysOf_aerase_sublist st.pending id).subset (hp ▸ hmem))
    · rw [List.mem_singleton.mp hm]
      intro hmem
      have hnone := alookup_eq_none_iff.mp
        (@alookup_aerase_self Entry st.pending id hwf.1)
      exact hnone (hp ▸ hmem)
  · intro id' hm
    rw [hc]
    rcases List.mem_append.mp hm with hm | hm
    · exact hs.2.2 id' hm
    · rw [List.mem_singleton.mp hm, ← hq1]
      exact hwf.2 q hq_mem

lemma inv_clear {st s' : SState} {seen : List String} {effs : List Effect}
    (hp : s'.pending = []) (hc : s'.messageCounter = st.messageCounter)
    (he : settledIds effs = keysOf st.pending)
    (hwf : pendingWF st) (hs : SeenOK st seen) :
    pendingWF s' ∧ SeenOK s' (seen ++ settledIds effs) := by
  rw [he]
  refine ⟨⟨by rw [hp]; exact List.nodup_nil, ?_⟩, ?_, ?_, ?_⟩
  · intro p hpm
    rw [hp] at hpm
    exact absurd hpm (List.not_mem_nil p)
  · rw [List.nodup_append]
    exact ⟨hs.1, hwf.1, fun id hm1 hm2 => hs.2.1 id hm1 hm2⟩
  · intro id hm hmem
    rw [hp] at hmem
    exact absurd hmem (List.not_mem_nil id)
  · intro id hm
    rw [hc]
    rcases List.mem_append.mp hm with hm | hm
    · exact hs.2.2 id hm
    · obtain ⟨q, hq_mem, hq1⟩ := List.mem_map.mp hm
      rw [← hq1]
      exact hwf.2 q hq_mem

lemma inv_register {st s' : SState} {seen : List String} {effs : List Effect}
    (t : Nat) (entry : Entry)
    (hp : s'.pending = aset st.pending (mkId (st.messageCounter + 1) t) entry)
    (hc : s'.messageCounter = st.messageCounter + 1)
    (he : settledIds effs = [])
    (hwf : pendingWF st) (hs : SeenOK st seen) :
    pendingWF s' ∧ SeenOK s' (seen ++ settledIds effs) := by
  rw [he, List.append_nil]
  have hfresh : mkId (st.messageCounter + 1) t ∉ keysOf st.pending := by
    intro hmem
    obtain ⟨q, hq_mem, hq1⟩ := List.mem_map.mp hmem
    obtain ⟨c, t', hqid, hc0, hcle⟩ := hwf.2 q hq_mem
    have heq : mkId c t' = mkId (st.messageCounter + 1) t := by rw [← hqid, hq1]
    have := mkId_inj_counter heq
    omega
  have hkeys : keysOf s'.pending = keysOf st.pending ++ [mkId (st.messageCounter + 1) t] := by
    rw [hp]
    exact keysOf_aset_of_not_mem entry hfresh
  refine ⟨⟨?_, ?_⟩, ?_, ?_, ?_⟩
  · rw [hkeys, List.nodup_append]
    exact ⟨hwf.1, List.nodup_singleton _,
      fun x hx hy => (List.mem_singleton.mp hy ▸ hfresh) hx⟩
  · intro p hpm
    rw [hp] at hpm
    rcases mem_aset hpm with hpm | hpm
    · obtain ⟨c, t', h1, h2, h3⟩ := hwf.2 p hpm
      exact ⟨c, t', h1, h2, by omega⟩
    · exact ⟨st.messageCounter + 1, t, by rw [hpm], by omega, by omega⟩
  · exact hs.1
  · intro id' hm
    rw [hkeys]
    intro hmem
    rcases List.mem_append.mp hmem with hmem | hmem
    · exact hs.2.1 id' hm hmem
    · obtain ⟨c, t', h1, h2, h3⟩ := hs.2.2 id' hm
      have : c = st.messageCounter + 1 :=
        mkId_inj_counter (h1 ▸ List.mem_singleton.mp hmem : mkId c t' = mkId _ t)
      omega
  · intro id' hm
    obtain ⟨c, t', h1, h2, h3⟩ := hs.2.2 id' hm
    exact ⟨c, t', h1, h2, by omega⟩


lemma step_inv {st : SState} {e : Event} {s' : SState} {effs : List Effect}
    {seen : List String}
    (hwf : pendingWF st) (hs : SeenOK st seen)
    (hen : enabledB st e = true) (hstep : step st e = .ok (s', effs)) :
    pendingWF s' ∧ SeenOK s' (seen ++ settledIds effs) := by
  cases e with
  | connect chid =>
    rcases hcl : st.client with _ | old
    · simp only [step, hcl, Except.ok.injEq, Prod.mk.injEq] at hstep
      obtain ⟨h1, h2⟩ := hstep
      exact inv_nochange (by rw [← h1]) (by rw [← h1]) (by rw [← h2]; rfl) hwf hs
    · simp only [step, hcl, Except.ok.injEq, Prod.mk.injEq] at hstep
      obtain ⟨h1, h2⟩ := hstep
      exact inv_nochange (by rw [← h1]) (by rw [← h1]) (by rw [← h2]; rfl) hwf hs
  | closeEvt chid =>
    rcases hcl : st.client with _ | c
    · simp only [step, hcl, Except.ok.injEq, Prod.mk.injEq] at hstep
      obtain ⟨h1, h2⟩ := hstep
      exact inv_nochange (by rw [← h1]) (by rw [← h1]) (by rw [← h2]; rfl) hwf hs
    · by_cases hcc : c.chid = chid
      · simp only [step, hcl, if_pos hcc, Except.ok.injEq, Prod.mk.injEq] at hstep
        obtain ⟨h1, h2⟩ := hstep
        refine inv_clear (by rw [← h1]) (by rw [← h1]) ?_ hwf hs
        rw [← h2]
        simp [settledIds_rejectAll]
      · simp only [step, hcl, if_neg hcc, Except.ok.injEq, Prod.mk.injEq] at hstep
        obtain ⟨h1, h2⟩ := hstep
        exact inv_nochange (by rw [← h1]) (by rw [← h1]) (by rw [← h2]; rfl) hwf hs
  | message raw =>
    rcases hh : handleMessage st.pending raw with err | pr
    · rw [step, hh] at hstep
      simp [Except.map] at hstep
    · obtain ⟨p', effs0⟩ := pr
      rw [step, hh] at hstep
      simp only [Except.map, Except.ok.injEq, Prod.mk.injEq] at hstep
      obtain ⟨h1, h2⟩ := hstep
      rcases handleMessage_ok_cases hh with ⟨hp, hse⟩ | ⟨id, o, hl, hp, heq⟩
      · refine inv_nochange ?_ (by rw [← h1]) ?_ hwf hs
        · rw [← h1]; exact hp
        · rw [← h2]
          rcases hse with hse | hse <;> rw [hse] <;> rfl
      · refine inv_settleOne hl ?_ (by rw [← h1]) ?_ hwf hs
        · rw [← h1]; exact hp
        · rw [← h2, heq]; rfl
  | send ty params t1 t2 =>
    by_cases hconn : isConnected st = true
    · rcases hcl : st.client with _ | c
      · rw [isConnected, hcl] at hconn
        exact absurd hconn (by simp)
      · simp only [step, sendCommand, createCommand, hconn, hcl, if_true,
          Except.ok.injEq, Prod.mk.injEq] at hstep
        obtain ⟨h1, h2⟩ := hstep
        refine inv_register t1 { ctype := ty, timeoutMs := getTimeout ty }
          ?_ (by rw [← h1]) (by rw [← h2]; rfl) hwf hs
        rw [← h1]
    · simp only [step, sendCommand, Bool.not_eq_true] at hconn ⊢
      simp only [step, sendCommand, hconn, Bool.false_eq_true, if_false,
        Except.ok.injEq, Prod.mk.injEq] at hstep
      obtain ⟨h1, h2⟩ := hstep
      exact inv_nochange (by rw [← h1]) (by rw [← h1]) (by rw [← h2]; rfl) hwf hs
  | timerFire id =>
    rcases hal : alookup st.pending id with _ | entry
    · rw [enabledB, hal] at hen
      exact absurd hen (by simp)
    · simp only [step, hal, Except.ok.injEq, Prod.mk.injEq] at hstep
      obtain ⟨h1, h2⟩ := hstep
      have hl : (alookup st.pending id).isSome = true := by rw [hal]; rfl
      refine inv_settleOne hl (by rw [← h1]) (by rw [← h1]) ?_ hwf hs
      rw [← h2]; rfl
  | pingTick now =>
    by_cases hconn : isConnected st = true
    · rcases hcl : st.client with _ | c
      · rw [isConnected, hcl] at hconn
        exact absurd hconn (by simp)
      · simp only [step, hconn, hcl, if_true, Except.ok.injEq, Prod.mk.injEq] at hstep
        obtain ⟨h1, h2⟩ := hstep
        exact inv_nochange (by rw [← h1]) (by rw [← h1]) (by rw [← h2]; rfl) hwf hs
    · simp only [Bool.not_eq_true] at hconn
      simp only [step, hconn, Bool.false_eq_true, if_false,
        Except.ok.injEq, Prod.mk.injEq] at hstep
      obtain ⟨h1, h2⟩ := hstep
      exact inv_nochange (by rw [← h1]) (by rw [← h1]) (by rw [← h2]; rfl) hwf hs
  | stop =>
    rcases hcl : st.client with _ | c
    · simp only [step, hcl, Except.ok.injEq, Prod.mk.injEq] at hstep
      obtain ⟨h1, h2⟩ := hstep
      refine inv_clear (by rw [← h1]) (by rw [← h1]) ?_ hwf hs
      rw [← h2]
      simp [settledIds_append, settledIds_rejectAll]
    · simp only [step, hcl, Except.ok.injEq, Prod.mk.injEq] at hstep
      obtain ⟨h1, h2⟩ := hstep
      refine inv_clear (by rw [← h1]) (by rw [← h1]) ?_ hwf hs
      rw [← h2]
      simp [settledIds_append, settledIds_rejectAll]

lemma runOk_inv :
    ∀ {evs : List Event} {st s' : SState} {effs : List Effect} {seen : List String},
    runOk st evs = some (s', effs) → pendingWF st → SeenOK st seen →
    (seen ++ settledIds effs).Nodup := by
  intro evs
  induction evs with
  | nil =>
    intro st s' effs seen h hwf hs
    simp only [runOk, Option.some.injEq, Prod.mk.injEq] at h
    rw [← h.2]
    simpa using hs.1
  | cons e evs ih =>
    intro st s' effs seen h hwf hs
    rw [runOk] at h
    by_cases hen : enabledB st e = true
    · simp only [hen, if_true] at h
      rcases hst : step st e with err | pr
      · rw [hst] at h
        exact absurd h (by simp)
      · obtain ⟨st1, effs1⟩ := pr
        rw [hst] at h
        dsimp only at h
        rcases hrun : runOk st1 evs with _ | pr2
        · rw [hrun] at h
          exact absurd h (by simp)
        · obtain ⟨st2, effs2⟩ := pr2
          rw [hrun] at h
          simp only [Option.some.injEq, Prod.mk.injEq] at h
          obtain ⟨h1, h2⟩ := h
          have hinv := step_inv hwf hs hen hst
          have hrec := ih hrun hinv.1 hinv.2
          rw [← h2, settledIds_append, ← List.append_assoc]
          exact hrec
    · simp only [Bool.not_eq_true] at hen
      simp only [hen, Bool.false_eq_true, if_false] at h
      exact absurd h (by simp)

lemma init_WF : pendingWF init ∧ SeenOK init [] := by
  refine ⟨⟨by simp [init], ?_⟩, by simp, ?_, ?_⟩ <;> simp [init]


lemma stateNote_not_mem_rejectAll (p : List (String × Entry)) (r s : String) :
    Effect.stateNote s ∉ rejectAllEffects p r := by
  intro hm
  obtain ⟨q, _, hq⟩ := List.mem_map.mp hm
  exact Effect.noConfusion hq

/-- Any id carrying a `settled` effect of a handler run is absent from the
pending table of the post state: removal precedes the callback. -/
lemma step_settled_removed {st : SState} {e : Event} {s' : SState} {effs : List Effect}
    (hnd : (keysOf st.pending).Nodup) (hstep : step st e = .ok (s', effs)) :
    ∀ id, id ∈ settledIds effs → alookup s'.pending id = none := by
  cases e with
  | connect chid =>
    rcases hcl : st.client with _ | old <;>
      · simp only [step, hcl, Except.ok.injEq, Prod.mk.injEq] at hstep
        intro id hm
        rw [← hstep.2] at hm
        simp at hm
  | closeEvt chid =>
    rcases hcl : st.client with _ | c
    · simp only [step, hcl, Except.ok.injEq, Prod.mk.injEq] at hstep
      intro id hm
      rw [← hstep.2] at hm
      simp at hm
    · by_cases hcc : c.chid = chid
      · simp only [step, hcl, if_pos hcc, Except.ok.injEq, Prod.mk.injEq] at hstep
        intro id _
        rw [← hstep.1]
        rfl
      · simp only [step, hcl, if_neg hcc, Except.ok.injEq, Prod.mk.injEq] at hstep
        intro id hm
        rw [← hstep.2] at hm
        simp at hm
  | message raw =>
    rcases hh : handleMessage st.pending raw with err | pr
    · rw [step, hh] at hstep
      simp [Except.map] at hstep
    · obtain ⟨p', effs0⟩ := pr
      rw [step, hh] at hstep
      simp only [Except.map, Except.ok.injEq, Prod.mk.injEq] at hstep
      obtain ⟨h1, h2⟩ := hstep
      intro id hm
      rw [← h2] at hm
      rcases handleMessage_ok_cases hh with ⟨hp, hse⟩ | ⟨id0, o, hl, hp, heq⟩
      · rcases hse with hse | hse <;> rw [hse] at hm <;> simp at hm
      · rw [heq] at hm
        simp only [settledIds_cons_settled, settledIds_nil, List.mem_singleton] at hm
        rw [← h1, hm]
        exact hp ▸ alookup_aerase_self hnd
  | send ty params t1 t2 =>
    by_cases hconn : isConnected st = true
    · rcases hcl : st.client with _ | c
      · rw [isConnected, hcl] at hconn
        exact absurd hconn (by simp)
      · simp only [step, sendCommand, createCommand, hconn, hcl, if_true,
          Except.ok.injEq, Prod.mk.injEq] at hstep
        intro id hm
        rw [← hstep.2] at hm
        simp at hm
    · simp only [Bool.not_eq_true] at hconn
      simp only [step, sendCommand, hconn, Bool.false_eq_true, if_false,
        Except.ok.injEq, Prod.mk.injEq] at hstep
      intro id hm
      rw [← hstep.2] at hm
      simp at hm
  | timerFire id0 =>
    rcases hal : alookup st.pending id0 with _ | entry
    · simp only [step, hal, Except.ok.injEq, Prod.mk.injEq] at hstep
      intro id hm
      rw [← hstep.2] at hm
      simp at hm
    · simp only [step, hal, Except.ok.injEq, Prod.mk.injEq] at hstep
      intro id hm
      rw [← hstep.2] at hm
      simp only [settledIds_cons_settled, settledIds_nil, List.mem_singleton] at hm
      rw [← hstep.1, hm]
      exact alookup_aerase_self hnd
  | pingTick now =>
    by_cases hconn : isConnected st = true
    · rcases hcl : st.client with _ | c
      · rw [isConnected, hcl] at hconn
        exact absurd hconn (by simp)
      · simp only [step, hconn, hcl, if_true, Except.ok.injEq, Prod.mk.injEq] at hstep
        intro id hm
        rw [← hstep.2] at hm
        simp at hm
    · simp only [Bool.not_eq_true] at hconn
      simp only [step, hconn, Bool.false_eq_true, if_false,
        Except.ok.injEq, Prod.mk.injEq] at hstep
      intro id hm
      rw [← hstep.2] at hm
      simp at hm
  | stop =>
    rcases hcl : st.client with _ | c <;>
      · simp only [step, hcl, Except.ok.injEq, Prod.mk.injEq] at hstep
        intro id _
        rw [← hstep.1]
        rfl

/-- An id that leaves the pending table in one step was settled in that
step: entries are never silently dropped. -/
lemma step_removed_settled {st : SState} {e : Event} {s' : SState} {effs : List Effect}
    {id : String} (hstep : step st e = .ok (s', effs))
    (hin : (alookup st.pending id).isSome = true)
    (hout : alookup s'.pending id = none) :
    id ∈ settledIds effs := by
  cases e with
  | connect chid =>
    rcases hcl : st.client with _ | old <;>
      · simp only [step, hcl, Except.ok.injEq, Prod.mk.injEq] at hstep
        have hsame : alookup st.pending id = none := by rw [← hstep.1] at hout; exact hout
        rw [hsame] at hin
        simp at hin
  | closeEvt chid =>
    rcases hcl : st.client with _ | c
    · simp only [step, hcl, Except.ok.injEq, Prod.mk.injEq] at hstep
      have hsame : alookup st.pending id = none := by rw [← hstep.1] at hout; exact hout
      rw [hsame] at hin
      simp at hin
    · by_cases hcc : c.chid = chid
      · simp only [step, hcl, if_pos hcc, Except.ok.injEq, Prod.mk.injEq] at hstep
        rw [← hstep.2]
        simp only [settledIds_cons_log, settledIds_rejectAll]
        exact alookup_isSome_iff.mp hin
      · simp only [step, hcl, if_neg hcc, Except.ok.injEq, Prod.mk.injEq] at hstep
        have hsame : alookup st.pending id = none := by rw [← hstep.1] at hout; exact hout
        rw [hsame] at hin
        simp at hin
  | message raw =>
    rcases hh : handleMessage st.pending raw with err | pr
    · rw [step, hh] at hstep
      simp [Except.map] at hstep
    · obtain ⟨p', effs0⟩ := pr
      rw [step, hh] at hstep
      simp only [Except.map, Except.ok.injEq, Prod.mk.injEq] at hstep
      obtain ⟨h1, h2⟩ := hstep
      have hout' : alookup p' id = none := by rw [← h1] at hout; exact hout
      rcases handleMessage_ok_cases hh with ⟨hp, _⟩ | ⟨id0, o, hl, hp, heq⟩
      · rw [hp] at hout'
        rw [hout'] at hin
        simp at hin
      · by_cases hid : id = id0
        · rw [← h2, heq, hid]
          simp
        · rw [hp, alookup_aerase_ne hid] at hout'
          rw [hout'] at hin
          simp at hin
  | send ty params t1 t2 =>
    by_cases hconn : isConnected st = true
    · rcases hcl : st.client with _ | c
      · rw [isConnected, hcl] at hconn
        exact absurd hconn (by simp)
      · simp only [step, sendCommand, createCommand, hconn, hcl, if_true,
          Except.ok.injEq, Prod.mk.injEq] at hstep
        obtain ⟨h1, h2⟩ := hstep
        by_cases hid : id = mkId (st.messageCounter + 1) t1
        · have := alookup_aset_self st.pending (mkId (st.messageCounter + 1) t1)
            (Entry.mk ty (getTimeout ty))
          rw [← h1] at hout
          rw [hid] at hout
          rw [hout] at this
          exact Option.noConfusion this
        · rw [← h1] at hout
          rw [alookup_aset_ne hid] at hout
          rw [hout] at hin
          simp at hin
    · simp only [Bool.not_eq_true] at hconn
      simp only [step, sendCommand, hconn, Bool.false_eq_true, if_false,
        Except.ok.injEq, Prod.mk.injEq] at hstep
      have hsame : alookup st.pending id = none := by rw [← hstep.1] at hout; exact hout
      rw [hsame] at hin
      simp at hin
  | timerFire id0 =>
    rcases hal : alookup st.pending id0 with _ | entry
    · simp only [step, hal, Except.ok.injEq, Prod.mk.injEq] at hstep
      have hsame : alookup st.pending id = none := by rw [← hstep.1] at hout; exact hout
      rw [hsame] at hin
      simp at hin
    · simp only [step, hal, Except.ok.injEq, Prod.mk.injEq] at hstep
      obtain ⟨h1, h2⟩ := hstep
      by_cases hid : id = id0
      · rw [← h2, hid]
        simp
      · rw [← h1, alookup_aerase_ne hid] at hout
        rw [hout] at hin
        simp at hin
  | pingTick now =>
    by_cases hconn : isConnected st = true
    · rcases hcl : st.client with _ | c
      · rw [isConnected, hcl] at hconn
        exact absurd hconn (by simp)
      · simp only [step, hconn, hcl, if_true, Except.ok.injEq, Prod.mk.injEq] at hstep
        have hsame : alookup st.pending id = none := by rw [← hstep.1] at hout; exact hout
        rw [hsame] at hin
        simp at hin
    · simp only [Bool.not_eq_true] at hconn
      simp only [step, hconn, Bool.false_eq_true, if_false,
        Except.ok.injEq, Prod.mk.injEq] at hstep
      have hsame : alookup st.pending id = none := by rw [← hstep.1] at hout; exact hout
      rw [hsame] at hin
      simp at hin
  | stop =>
    have hmem := alookup_isSome_iff.mp hin
    rcases hcl : st.client with _ | c <;>
      · simp only [step, hcl, Except.ok.injEq, Prod.mk.injEq] at hstep
        rw [← hstep.2]
        simpa [settledIds_append, settledIds_rejectAll] using hmem

/-- While no channel is tracked, only a connect event can install one. -/
lemma step_client_none {st : SState} {e : Event} {s' : SState} {effs : List Effect}
    (hstep : step st e = .ok (s', effs)) (hcl : st.client = none)
    (hne : e.isConnect = false) : s'.client = none := by
  cases e with
  | connect chid => simp [Event.isConnect] at hne
  | closeEvt chid =>
    simp only [step, hcl, Except.ok.injEq, Prod.mk.injEq] at hstep
    rw [← hstep.1]
    exact hcl
  | message raw =>
    rcases hh : handleMessage st.pending raw with err | pr
    · rw [step, hh] at hstep
      simp [Except.map] at hstep
    · obtain ⟨p', effs0⟩ := pr
      rw [step, hh] at hstep
      simp only [Except.map, Except.ok.injEq, Prod.mk.injEq] at hstep
      rw [← hstep.1]
      exact hcl
  | send ty params t1 t2 =>
    have hconn : isConnected st = false := by rw [isConnected, hcl]
    simp only [step, sendCommand, hconn, Bool.false_eq_true, if_false,
      Except.ok.injEq, Prod.mk.injEq] at hstep
    rw [← hstep.1]
    exact hcl
  | timerFire id =>
    rcases hal : alookup st.pending id with _ | entry <;>
      · simp only [step, hal, Except.ok.injEq, Prod.mk.injEq] at hstep
        rw [← hstep.1]
        exact hcl
  | pingTick now =>
    have hconn : isConnected st = false := by rw [isConnected, hcl]
    simp only [step, hconn, Bool.false_eq_true, if_false,
      Except.ok.injEq, Prod.mk.injEq] at hstep
    rw [← hstep.1]
    exact hcl
  | stop =>
    simp only [step, hcl, Except.ok.injEq, Prod.mk.injEq] at hstep
    rw [← hstep.1]

lemma runOk_client_none :
    ∀ {evs : List Event} {st s' : SState} {effs : List Effect},
    runOk st evs = some (s', effs) → st.client = none →
    (∀ e ∈ evs, e.isConnect = false) → s'.client = none := by
  intro evs
  induction evs with
  | nil =>
    intro st s' effs h hcl _
    simp only [runOk, Option.some.injEq, Prod.mk.injEq] at h
    rw [← h.1]
    exact hcl
  | cons e evs ih =>
    intro st s' effs h hcl hne
    rw [runOk] at h
    by_cases hen : enabledB st e = true
    · simp only [hen, if_true] at h
      rcases hst : step st e with err | pr
      · rw [hst] at h
        exact absurd h (by simp)
      · obtain ⟨st1, effs1⟩ := pr
        rw [hst] at h
        dsimp only at h
        rcases hrun : runOk st1 evs with _ | pr2
        · rw [hrun] at h
          exact absurd h (by simp)
        · obtain ⟨st2, effs2⟩ := pr2
          rw [hrun] at h
          simp only [Option.some.injEq, Prod.mk.injEq] at h
          have h1 := step_client_none hst hcl (hne e (List.mem_cons_self e evs))
          rw [← h.1]
          exact ih hrun h1 (fun x hx => hne x (List.mem_cons_of_mem e hx))
    · simp only [Bool.not_eq_true] at hen
      simp only [hen, Bool.false_eq_true, if_false] at h
      exact absurd h (by simp)


/-! ## Claim theorems -/

/-- Claim C1: every pending entry registered by sendCommand is settled by
exactly one of the three paths (matching reply, deadline timer, rejectAll on
disconnection or shutdown).  Formally: (1) in any run from the initial
state, each id carries at most one settled callback; (2) whenever a step
emits a settled callback for an id, the post state no longer contains that
id (removal, and hence timer cancellation, precede the callback); (3) an id
never leaves the pending table without a settled callback in the same step;
(4) while an id is pending its deadline timer is live, so one of the three
paths remains available. -/
theorem C1_pending_settled_exactly_once :
    (∀ evs s' effs, runOk init evs = some (s', effs) →
      ∀ id, (settledIds effs).count id ≤ 1)
  ∧ (∀ st e s' effs, (keysOf st.pending).Nodup → step st e = Except.ok (s', effs) →
      ∀ id, id ∈ settledIds effs → alookup s'.pending id = none)
  ∧ (∀ st e s' effs id, step st e = Except.ok (s', effs) →
      (alookup st.pending id).isSome = true → alookup s'.pending id = none →
      id ∈ settledIds effs)
  ∧ (∀ st id, (alookup st.pending id).isSome = true →
      enabledB st (Event.timerFire id) = true) := by
  refine ⟨?_, ?_, ?_, ?_⟩
  · intro evs s' effs h id
    have hnd := runOk_inv h init_WF.1 init_WF.2
    simp only [List.nil_append] at hnd
    exact List.nodup_iff_count_le_one.mp hnd id
  · intro st e s' effs hnd hstep id hm
    exact step_settled_removed hnd hstep id hm
  · intro st e s' effs id hstep hin hout
    exact step_removed_settled hstep hin hout
  · intro st id h
    exact h

/-- The events of the C1 witness run: accept a channel, register one
command, settle it with a matching result frame. -/
def evsW : List Event :=
  [Event.connect 1,
   Event.send "get_tabs" (Json.obj []) 5 6,
   Event.message (Raw.parsed (Json.obj
     [("id", Json.str "msg_1_5"), ("type", Json.str "result"), ("data", Json.num 42)]))]

/-- Witness for C1: on a concrete run that registers and settles one
command, the settled id appears exactly once, and the timer of a concretely
pending id is enabled. -/
theorem C1_witness :
    (settledIds [Effect.log "Chrome extension connected",
        Effect.sentCmd 1
          { id := "msg_1_5", type := "get_tabs", params := Json.obj [], timestamp := 6 },
        Effect.settled "msg_1_5" (Outcome.resolved (some (Json.num 42)))]).count
      "msg_1_5" ≤ 1
  ∧ enabledB { client := some { chid := 1, ready := 1 },
               pending := [("msg_1_5", { ctype := "get_tabs", timeoutMs := 30000 })],
               messageCounter := 1 } (Event.timerFire "msg_1_5") = true :=
  ⟨C1_pending_settled_exactly_once.1 evsW
      { client := some { chid := 1, ready := 1 }, pending := [], messageCounter := 1 }
      _ rfl "msg_1_5",
   C1_pending_settled_exactly_once.2.2.2
      { client := some { chid := 1, ready := 1 },
        pending := [("msg_1_5", { ctype := "get_tabs", timeoutMs := 30000 })],
        messageCounter := 1 } "msg_1_5" rfl⟩

/-- Claim C2: a new incoming connection while a channel is active closes the
old channel with the replaced reason (code 1000) and installs the new one as
active; the pending table and counter are untouched and no entry is settled
(the effect list carries no settled callback); and a close event for a
channel that is not the currently tracked client is a no-op on the pending
table and the session state. -/
theorem C2_replacement_keeps_pending :
    (∀ st old chid, st.client = some old →
      step st (Event.connect chid) =
        Except.ok ({ st with client := some { chid := chid, ready := 1 } },
          [Effect.log "Chrome extension connected",
           Effect.log "Replacing existing connection",
           Effect.closedChan old.chid 1000 "Replaced by new connection"]))
  ∧ (∀ st c chid, st.client = some c → c.chid ≠ chid →
      step st (Event.closeEvt chid) =
        Except.ok (st, [Effect.log "Chrome extension disconnected"])) := by
  constructor
  · intro st old chid hcl
    simp [step, hcl]
  · intro st c chid hcl hne
    simp [step, hcl, hne]

/-- Witness for C2: a second connection replaces the first while one entry
is pending, and the subsequent close event of the superseded channel leaves
the state (pending entry included) untouched. -/
theorem C2_witness :
    step { client := some { chid := 1, ready := 1 },
           pending := [("msg_1_5", { ctype := "get_tabs", timeoutMs := 30000 })],
           messageCounter := 1 } (Event.connect 2) =
      Except.ok ({ client := some { chid := 2, ready := 1 },
                   pending := [("msg_1_5", { ctype := "get_tabs", timeoutMs := 30000 })],
                   messageCounter := 1 },
        [Effect.log "Chrome extension connected",
         Effect.log "Replacing existing connection",
         Effect.closedChan 1 1000 "Replaced by new connection"])
  ∧ step { client := some { chid := 2, ready := 1 },
           pending := [("msg_1_5", { ctype := "get_tabs", timeoutMs := 30000 })],
           messageCounter := 1 } (Event.closeEvt 1) =
      Except.ok ({ client := some { chid := 2, ready := 1 },
                   pending := [("msg_1_5", { ctype := "get_tabs", timeoutMs := 30000 })],
                   messageCounter := 1 },
        [Effect.log "Chrome extension disconnected"]) :=
  ⟨C2_replacement_keeps_pending.1 _ { chid := 1, ready := 1 } 2 rfl,
   C2_replacement_keeps_pending.2 _ { chid := 2, ready := 1 } 1 rfl (by decide)⟩

/-- Claim C3: sendCommand while not connected rejects in the same tick with
the not-connected error, returns the state unchanged (pending map and
counter intact, hence no deadline timer started) and writes nothing to any
channel (empty effect list). -/
theorem C3_send_not_connected :
    ∀ st type params tNowId tNowTs, isConnected st = false →
      sendCommand st type params tNowId tNowTs =
        (st, [], SendRes.notConnected "Chrome extension not connected") := by
  intro st ty p t1 t2 h
  simp [sendCommand, h]

/-- Witness for C3: the freshly started manager is not connected and the
send rejects immediately without effects. -/
theorem C3_witness :
    sendCommand init "get_tabs" (Json.obj []) 1 2 =
      (init, [], SendRes.notConnected "Chrome extension not connected") :=
  C3_send_not_connected init "get_tabs" (Json.obj []) 1 2 rfl

/-- Claim C4: when the tracked active channel closes, the client reference
is cleared and every pending entry is rejected with the connection-lost
reason (its timer being cancelled with its removal, the cleared table);
afterwards every sendCommand rejects with the not-connected error, and this
persists along any run with no connect event; accepting a new channel makes
the session connected again. -/
theorem C4_close_rejects_all_then_blocks :
    (∀ st c, st.client = some c →
      step st (Event.closeEvt c.chid) =
        Except.ok ({ st with client := none, pending := [] },
          Effect.log "Chrome extension disconnected"
            :: rejectAllEffects st.pending "Extension disconnected"))
  ∧ (∀ st, st.client = none → ∀ ty params t1 t2,
      sendCommand st ty params t1 t2 =
        (st, [], SendRes.notConnected "Chrome extension not connected"))
  ∧ (∀ st evs s' effs, runOk st evs = some (s', effs) → st.client = none →
      (∀ e ∈ evs, e.isConnect = false) → s'.client = none)
  ∧ (∀ st chid s' effs, step st (Event.connect chid) = Except.ok (s', effs) →
      isConnected s' = true) := by
  refine ⟨?_, ?_, ?_, ?_⟩
  · intro st c hcl
    simp [step, hcl]
  · intro st hcl ty p t1 t2
    have h : isConnected st = false := by rw [isConnected, hcl]
    simp [sendCommand, h]
  · intro st evs s' effs h hcl hne
    exact runOk_client_none h hcl hne
  · intro st chid s' effs hstep
    rcases hcl : st.client with _ | c <;>
      · simp only [step, hcl, Except.ok.injEq, Prod.mk.injEq] at hstep
        rw [← hstep.1]
        rfl

/-- Witness for C4: closing the tracked channel with one entry pending
rejects it with the connection-lost reason and clears the state; a send in
the resulting state fails with the not-connected error; connecting again
restores connectivity. -/
theorem C4_witness :
    step { client := some { chid := 1, ready := 1 },
           pending := [("msg_1_5", { ctype := "get_tabs", timeoutMs := 30000 })],
           messageCounter := 1 } (Event.closeEvt 1) =
      Except.ok ({ client := none, pending := [], messageCounter := 1 },
        [Effect.log "Chrome extension disconnected",
         Effect.settled "msg_1_5" (Outcome.rejected "Extension disconnected")])
  ∧ sendCommand { client := none, pending := [], messageCounter := 1 }
      "get_tabs" (Json.obj []) 7 8 =
      ({ client := none, pending := [], messageCounter := 1 }, [],
        SendRes.notConnected "Chrome extension not connected")
  ∧ isConnected { client := some { chid := 2, ready := 1 },
                  pending := [], messageCounter := 1 } = true :=
  ⟨C4_close_rejects_all_then_blocks.1 _ { chid := 1, ready := 1 } rfl,
   C4_close_rejects_all_then_blocks.2.1 _ rfl "get_tabs" (Json.obj []) 7 8,
   C4_close_rejects_all_then_blocks.2.2.2
     { client := none, pending := [], messageCounter := 1 } 2 _ _ rfl⟩

/-- Claim C5: the timeout policy returns 10000 ms for screenshot, 120000 ms
for full_page_screenshot and check_links, 60000 ms for wait_for_element and
30000 ms for every other command type. -/
theorem C5_timeout_policy :
    getTimeout MessageType.SCREENSHOT = 10000
  ∧ getTimeout MessageType.FULL_PAGE_SCREENSHOT = 120000
  ∧ getTimeout MessageType.CHECK_LINKS = 120000
  ∧ getTimeout MessageType.WAIT_FOR_ELEMENT = 60000
  ∧ (∀ ty, ty ≠ MessageType.SCREENSHOT → ty ≠ MessageType.FULL_PAGE_SCREENSHOT →
      ty ≠ MessageType.CHECK_LINKS → ty ≠ MessageType.WAIT_FOR_ELEMENT →
      getTimeout ty = 30000) := by
  refine ⟨rfl, rfl, rfl, rfl, ?_⟩
  intro ty h1 h2 h3 h4
  simp [getTimeout, h1, h2, h3, h4, COMMAND_TIMEOUT_MS]

/-- Witness for C5: an unlisted command type gets the 30000 ms default. -/
theorem C5_witness : getTimeout "navigate" = 30000 :=
  C5_timeout_policy.2.2.2.2 "navigate" (by decide) (by decide) (by decide) (by decide)

/-- Claim C6: any two distinct createCommand calls in one process return
distinct ids, even with identical wall-clock timestamps, because the
embedded counter strictly increases across calls: the first call bumps the
counter from k to k+1, a later call bumps it from k+1+n to k+2+n. -/
theorem C6_createCommand_ids_unique :
    ∀ (k n : Nat) (ty1 ty2 : String) (p1 p2 : Json) (ta tb tc td : Nat),
      (createCommand k ty1 p1 ta tb).2.id ≠
        (createCommand (k + 1 + n) ty2 p2 tc td).2.id := by
  intro k n ty1 ty2 p1 p2 ta tb tc td
  show mkId (k + 1) ta ≠ mkId (k + 1 + n + 1) tc
  exact mkId_ne_of_counter_ne (by omega)


lemma typeIs_false_of_typeIs {v : Json} {s s' : String} (h : typeIs v s = true)
    (hne : s' ≠ s) : typeIs v s' = false := by
  unfold typeIs at h ⊢
  rcases hj : jsField v "type" with _ | j
  · rw [hj] at h
  · rw [hj] at h
    cases j with
    | str t =>
      have ht : t = s := of_decide_eq_true (show decide (t = s) = true from h)
      subst ht
      show decide (t = s') = false
      exact decide_eq_false fun hc => hne hc.symm
    | null => rfl
    | bool b => rfl
    | num n => rfl
    | arr xs => rfl
    | obj fs => rfl

/-- Claim C7 as stated is false on the code: the inbound router settles a
matching pending entry for ANY non-pong frame kind, not only result or
error.  The frame kind banana settles the entry. -/
theorem C7_counterexample :
    ¬ (∀ (pending : List (String × Entry)) (v : Json) (p' : List (String × Entry))
        (effs : List Effect) (id : String) (o : Outcome),
        handleMessage pending (Raw.parsed v) = Except.ok (p', effs) →
        Effect.settled id o ∈ effs →
        typeIs v MessageType.RESULT = true ∨ typeIs v MessageType.ERROR = true) := by
  intro h
  have hc := h [("x", { ctype := "get_tabs", timeoutMs := 30000 })]
    (Json.obj [("id", Json.str "x"), ("type", Json.str "banana")])
    [] [Effect.settled "x" (Outcome.resolved none)]
    "x" (Outcome.resolved none) rfl (List.mem_singleton.mpr rfl)
  rcases hc with hc | hc <;> exact absurd hc (by decide)

/-- Claim C7, amended to what the code does: a pong frame is a no-op; any
other parsed frame whose id matches a pending entry settles it after
erasing it from the table, rejecting with the frame error text when the
kind is error and otherwise (result included, but also any unknown kind)
resolving with the frame data field, unchanged; in particular a result
frame with a matching id resolves the caller with exactly that data. -/
theorem C7_amended_routing :
    (∀ (pending : List (String × Entry)) v, typeIs v MessageType.PONG = true →
      handleMessage pending (Raw.parsed v) = Except.ok (pending, []))
  ∧ (∀ (pending : List (String × Entry)) v id e, v ≠ Json.null →
      typeIs v MessageType.PONG = false →
      jsField v "id" = some (Json.str id) → alookup pending id = some e →
      handleMessage pending (Raw.parsed v) =
        Except.ok (aerase pending id,
          [Effect.settled id (if typeIs v MessageType.ERROR = true
            then Outcome.rejected (errText v)
            else Outcome.resolved (jsField v "data"))]))
  ∧ (∀ (pending : List (String × Entry)) v id e, typeIs v MessageType.RESULT = true →
      jsField v "id" = some (Json.str id) → alookup pending id = some e →
      handleMessage pending (Raw.parsed v) =
        Except.ok (aerase pending id,
          [Effect.settled id (Outcome.resolved (jsField v "data"))])) := by
  have hcore : ∀ (pending : List (String × Entry)) v id e, v ≠ Json.null →
      typeIs v MessageType.PONG = false →
      jsField v "id" = some (Json.str id) → alookup pending id = some e →
      handleMessage pending (Raw.parsed v) =
        Except.ok (aerase pending id,
          [Effect.settled id (if typeIs v MessageType.ERROR = true
            then Outcome.rejected (errText v)
            else Outcome.resolved (jsField v "data"))]) := by
    intro pending v id e hv hpong hid hal
    rw [handleMessage_parsed pending v hv]
    rw [if_neg (by rw [hpong]; exact Bool.false_ne_true)]
    by_cases he : typeIs v MessageType.ERROR = true
    · simp only [settleFrame, hid, hal, he, if_true]
    · rw [Bool.not_eq_true] at he
      simp only [settleFrame, hid, hal, he, Bool.false_eq_true, if_false]
  refine ⟨?_, hcore, ?_⟩
  · intro pending v hp
    have hv : v ≠ Json.null := by
      intro hh
      subst hh
      simp [typeIs, jsField] at hp
    rw [handleMessage_parsed pending v hv, if_pos hp]
  · intro pending v id e hres hid hal
    have hv : v ≠ Json.null := by
      intro hh
      subst hh
      simp [typeIs, jsField] at hres
    have hpong : typeIs v MessageType.PONG = false :=
      typeIs_false_of_typeIs hres (by decide)
    have herr : typeIs v MessageType.ERROR = false :=
      typeIs_false_of_typeIs hres (by decide)
    rw [hcore pending v id e hv hpong hid hal, herr]
    simp

/-- Witness for C7 (amended): a concrete pong frame is a no-op while one
entry is pending, and a concrete result frame with the matching id resolves
the caller with exactly the frame data. -/
theorem C7_witness :
    handleMessage [("msg_1_5", { ctype := "get_tabs", timeoutMs := 30000 })]
        (Raw.parsed (Json.obj [("type", Json.str "pong")])) =
      Except.ok ([("msg_1_5", { ctype := "get_tabs", timeoutMs := 30000 })], [])
  ∧ handleMessage [("msg_1_5", { ctype := "get_tabs", timeoutMs := 30000 })]
        (Raw.parsed (Json.obj [("id", Json.str "msg_1_5"), ("type", Json.str "result"),
          ("data", Json.num 42)])) =
      Except.ok ([],
        [Effect.settled "msg_1_5" (Outcome.resolved (some (Json.num 42)))]) :=
  ⟨C7_amended_routing.1 _ (Json.obj [("type", Json.str "pong")]) (by decide),
   C7_amended_routing.2.2 _
     (Json.obj [("id", Json.str "msg_1_5"), ("type", Json.str "result"),
       ("data", Json.num 42)])
     "msg_1_5" { ctype := "get_tabs", timeoutMs := 30000 } (by decide) rfl rfl⟩

/-- Claim C8: a reply frame whose id matches no pending entry is a no-op:
the inlined settle reports the miss (returns false) with the table
unchanged and no effect, and the handler returns the unchanged table with
no effects, so no timer is touched and no caller is settled. -/
theorem C8_unmatched_reply_noop :
    (∀ (pending : List (String × Entry)) v,
      (∀ id, jsField v "id" = some (Json.str id) → alookup pending id = none) →
      settleFrame pending v = (false, pending, []))
  ∧ (∀ (pending : List (String × Entry)) v, v ≠ Json.null →
      typeIs v MessageType.PONG = false →
      (∀ id, jsField v "id" = some (Json.str id) → alookup pending id = none) →
      handleMessage pending (Raw.parsed v) = Except.ok (pending, [])) := by
  have h1 : ∀ (pending : List (String × Entry)) v,
      (∀ id, jsField v "id" = some (Json.str id) → alookup pending id = none) →
      settleFrame pending v = (false, pending, []) := by
    intro pending v hmiss
    rcases hid : jsField v "id" with _ | j
    · simp only [settleFrame, hid]
    · cases j with
      | str id => simp only [settleFrame, hid, hmiss id hid]
      | null => simp only [settleFrame, hid]
      | bool b => simp only [settleFrame, hid]
      | num n => simp only [settleFrame, hid]
      | arr xs => simp only [settleFrame, hid]
      | obj fs => simp only [settleFrame, hid]
  refine ⟨h1, ?_⟩
  intro pending v hv hpong hmiss
  rw [handleMessage_parsed pending v hv,
    if_neg (by rw [hpong]; exact Bool.false_ne_true), h1 pending v hmiss]

/-- Witness for C8: a result frame with an unknown id while one entry is
pending changes nothing and settles nobody. -/
theorem C8_witness :
    settleFrame [("msg_1_5", { ctype := "get_tabs", timeoutMs := 30000 })]
        (Json.obj [("id", Json.str "zzz"), ("type", Json.str "result")]) =
      (false, [("msg_1_5", { ctype := "get_tabs", timeoutMs := 30000 })], [])
  ∧ handleMessage [("msg_1_5", { ctype := "get_tabs", timeoutMs := 30000 })]
        (Raw.parsed (Json.obj [("id", Json.str "zzz"), ("type", Json.str "result")])) =
      Except.ok ([("msg_1_5", { ctype := "get_tabs", timeoutMs := 30000 })], []) := by
  have hmiss : ∀ id, jsField (Json.obj [("id", Json.str "zzz"), ("type", Json.str "result")])
      "id" = some (Json.str id) →
      alookup [("msg_1_5", Entry.mk "get_tabs" 30000)] id = none := by
    intro id h
    have h' : some (Json.str "zzz") = some (Json.str id) := h
    injection h' with h'
    injection h' with h'
    rw [← h']
    decide
  exact ⟨C8_unmatched_reply_noop.1 _ _ hmiss,
    C8_unmatched_reply_noop.2 _ _ (fun hc => Json.noConfusion hc) (by decide) hmiss⟩

/-- Claim C9 is the intent but the code has a slip: the inbound handler
throws a TypeError on the valid JSON payload null, because the property
access msg.type happens outside the try block guarding JSON.parse.  The
theorem pins the failing input and shows the handler is otherwise total:
unparseable data is logged and dropped, and every parsed value other than
null is handled without throwing. -/
theorem C9_handler_total_except_null :
    handleMessage [] (Raw.parsed Json.null) =
      Except.error "TypeError: Cannot read properties of null (reading type)"
  ∧ (∀ pending : List (String × Entry), handleMessage pending Raw.malformed =
      Except.ok (pending, [Effect.log "Invalid JSON received"]))
  ∧ (∀ (pending : List (String × Entry)) v, v ≠ Json.null →
      (handleMessage pending (Raw.parsed v)).isOk = true) := by
  refine ⟨rfl, fun pending => rfl, ?_⟩
  intro pending v hv
  rw [handleMessage_parsed pending v hv]
  by_cases hp : typeIs v MessageType.PONG = true
  · rw [if_pos hp]
    rfl
  · rw [Bool.not_eq_true] at hp
    rw [if_neg (by rw [hp]; exact Bool.false_ne_true)]
    rfl

/-- Witness for C9: a parsed non-null frame is handled without throwing. -/
theorem C9_witness :
    (handleMessage [("msg_1_5", { ctype := "get_tabs", timeoutMs := 30000 })]
      (Raw.parsed (Json.obj []))).isOk = true :=
  C9_handler_total_except_null.2.2 _ (Json.obj []) (fun hc => Json.noConfusion hc)

/-- SessionState of the manager: connection-active iff a client is
tracked. -/
def sessionActive (st : SState) : Bool := st.client.isSome

/-- No handler run of the server session ever emits a connectivity-state
notification effect. -/
lemma step_no_stateNote {st : SState} {e : Event} {s' : SState} {effs : List Effect}
    (hstep : step st e = .ok (s', effs)) : ∀ s, Effect.stateNote s ∉ effs := by
  cases e with
  | connect chid =>
    rcases hcl : st.client with _ | old <;>
      · simp only [step, hcl, Except.ok.injEq, Prod.mk.injEq] at hstep
        intro s hm
        rw [← hstep.2] at hm
        simp at hm
  | closeEvt chid =>
    rcases hcl : st.client with _ | c
    · simp only [step, hcl, Except.ok.injEq, Prod.mk.injEq] at hstep
      intro s hm
      rw [← hstep.2] at hm
      simp at hm
    · by_cases hcc : c.chid = chid
      · simp only [step, hcl, if_pos hcc, Except.ok.injEq, Prod.mk.injEq] at hstep
        intro s hm
        rw [← hstep.2] at hm
        rcases List.mem_cons.mp hm with hm | hm
        · exact Effect.noConfusion hm
        · exact stateNote_not_mem_rejectAll st.pending "Extension disconnected" s hm
      · simp only [step, hcl, if_neg hcc, Except.ok.injEq, Prod.mk.injEq] at hstep
        intro s hm
        rw [← hstep.2] at hm
        simp at hm
  | message raw =>
    rcases hh : handleMessage st.pending raw with err | pr
    · rw [step, hh] at hstep
      simp [Except.map] at hstep
    · obtain ⟨p', effs0⟩ := pr
      rw [step, hh] at hstep
      simp only [Except.map, Except.ok.injEq, Prod.mk.injEq] at hstep
      intro s hm
      rw [← hstep.2] at hm
      rcases handleMessage_ok_cases hh with ⟨_, hse | hse⟩ | ⟨id0, o, _, _, heq⟩ <;>
        · first
          | (rw [hse] at hm; simp at hm)
          | (rw [heq] at hm; simp at hm)
  | send ty params t1 t2 =>
    by_cases hconn : isConnected st = true
    · rcases hcl : st.client with _ | c
      · rw [isConnected, hcl] at hconn
        exact absurd hconn (by simp)
      · simp only [step, sendCommand, createCommand, hconn, hcl, if_true,
          Except.ok.injEq, Prod.mk.injEq] at hstep
        intro s hm
        rw [← hstep.2] at hm
        simp at hm
    · simp only [Bool.not_eq_true] at hconn
      simp only [step, sendCommand, hconn, Bool.false_eq_true, if_false,
        Except.ok.injEq, Prod.mk.injEq] at hstep
      intro s hm
      rw [← hstep.2] at hm
      simp at hm
  | timerFire id =>
    rcases hal : alookup st.pending id with _ | entry <;>
      · simp only [step, hal, Except.ok.injEq, Prod.mk.injEq] at hstep
        intro s hm
        rw [← hstep.2] at hm
        simp at hm
  | pingTick now =>
    by_cases hconn : isConnected st = true
    · rcases hcl : st.client with _ | c
      · rw [isConnected, hcl] at hconn
        exact absurd hconn (by simp)
      · simp only [step, hconn, hcl, if_true, Except.ok.injEq, Prod.mk.injEq] at hstep
        intro s hm
        rw [← hstep.2] at hm
        simp at hm
    · simp only [Bool.not_eq_true] at hconn
      simp only [step, hconn, Bool.false_eq_true, if_false,
        Except.ok.injEq, Prod.mk.injEq] at hstep
      intro s hm
      rw [← hstep.2] at hm
      simp at hm
  | stop =>
    rcases hcl : st.client with _ | c
    · simp only [step, hcl, Except.ok.injEq, Prod.mk.injEq] at hstep
      intro s hm
      rw [← hstep.2] at hm
      exact stateNote_not_mem_rejectAll st.pending "Server shutting down" s hm
    · simp only [step, hcl, Except.ok.injEq, Prod.mk.injEq] at hstep
      intro s hm
      rw [← hstep.2] at hm
      rcases List.mem_append.mp hm with hm | hm
      · exact stateNote_not_mem_rejectAll st.pending "Server shutting down" s hm
      · simp at hm

/-- Every connection-state transition of the extension service worker
broadcasts its new state, which is one of the three published values. -/
lemma extStep_broadcast (st : Ext.EState) (e : Ext.EEvent)
    (hch : (Ext.extStep st e).1.connectionState ≠ st.connectionState) :
    Ext.EEffect.broadcast (Ext.extStep st e).1.connectionState ∈ (Ext.extStep st e).2 ∧
    ((Ext.extStep st e).1.connectionState = "connecting" ∨
     (Ext.extStep st e).1.connectionState = "connected" ∨
     (Ext.extStep st e).1.connectionState = "disconnected") := by
  cases e with
  | connectCall ok =>
    rcases hws : st.ws with _ | r
    · by_cases hok : ok = true <;>
        simp_all [Ext.extStep, Ext.connectBody, Ext.setConnectionState, hws]
    · by_cases hbusy : (r = 1 || r = 0) = true <;>
        by_cases hok : ok = true <;>
          simp_all [Ext.extStep, Ext.connectBody, Ext.setConnectionState, hws]
  | reconnectFire ok =>
    rcases hws : st.ws with _ | r
    · by_cases hok : ok = true <;>
        simp_all [Ext.extStep, Ext.connectBody, Ext.setConnectionState, hws]
    · by_cases hbusy : (r = 1 || r = 0) = true <;>
        by_cases hok : ok = true <;>
          simp_all [Ext.extStep, Ext.connectBody, Ext.setConnectionState, hws]
  | wsOpen => simp [Ext.extStep, Ext.setConnectionState]
  | wsClose => simp [Ext.extStep, Ext.setConnectionState]
  | query => exact absurd rfl hch

/-- Claim C10 as stated is false on the server code: accepting the first
connection is a SessionState transition (no-connection to
connection-active) yet the handler emits no connectivity-state notification
of the given form, only a log line. -/
theorem C10_counterexample :
    ¬ (∀ st e s' effs, step st e = Except.ok (s', effs) →
        sessionActive s' ≠ sessionActive st →
        ∃ s, Effect.stateNote s ∈ effs ∧
          (s = "connecting" ∨ s = "connected" ∨ s = "disconnected")) := by
  intro h
  obtain ⟨s, hmem, _⟩ := h init (Event.connect 1)
    { init with client := some { chid := 1, ready := 1 } }
    [Effect.log "Chrome extension connected"] rfl (by simp [sessionActive, init])
  simp at hmem

/-- Claim C10, amended to what the code does: the server session emits no
structured connectivity-state notification on any transition (its handlers
only write log lines); the { state } notification surface of the spec is
implemented by the extension service worker, which broadcasts its new
connection state, one of connecting, connected, disconnected, on every
transition of that state. -/
theorem C10_amended_notifications :
    (∀ st e s' effs, step st e = Except.ok (s', effs) →
      ∀ s, Effect.stateNote s ∉ effs)
  ∧ (∀ st e, (Ext.extStep st e).1.connectionState ≠ st.connectionState →
      Ext.EEffect.broadcast (Ext.extStep st e).1.connectionState ∈ (Ext.extStep st e).2 ∧
      ((Ext.extStep st e).1.connectionState = "connecting" ∨
       (Ext.extStep st e).1.connectionState = "connected" ∨
       (Ext.extStep st e).1.connectionState = "disconnected")) :=
  ⟨fun _ _ _ _ hstep => step_no_stateNote hstep,
   fun st e hch => extStep_broadcast st e hch⟩

/-- Witness for C10 (amended): the socket-open transition of the service
worker broadcasts the connected state, and the server connect handler emits
no state notification. -/
theorem C10_witness :
    Ext.EEffect.broadcast (Ext.extStep Ext.initExt Ext.EEvent.wsOpen).1.connectionState
      ∈ (Ext.extStep Ext.initExt Ext.EEvent.wsOpen).2
  ∧ Effect.stateNote "connected" ∉ [Effect.log "Chrome extension connected"] :=
  ⟨(C10_amended_notifications.2 Ext.initExt Ext.EEvent.wsOpen (by decide)).1,
   C10_amended_notifications.1 init (Event.connect 1)
     { init with client := some { chid := 1, ready := 1 } }
     [Effect.log "Chrome extension connected"] rfl "connected"⟩

end Bridge
